import Mathlib

/-!
# Metadata store and cloud-user status task of onecloud

A shallow embedding of `pkg/cloudcommon/db/metadata.go` and of
`pkg/cloudid/tasks/clouduser_syncstatus_task.go`.

Go strings are Lean strings; the string helpers work on the character list so
that every definition evaluates by structural recursion.  Stateful code passes
a `Store` explicitly: the rows of `metadata_tbl`, the outcomes the record
store will give to the coming operations, and the trace of the calls made to
the collaborators (lock manager, record store, audit sink).  A Go map is
ranged over in an unspecified order, so a `map[string]interface{}` argument is
the list of its entries in the order the `range` statement visits them.
-/

namespace Onecloud

/-! ## Strings and errors -/

/-- The constant `SYSTEM_ADMIN_PREFIX` of metadata.go. -/
def SYSTEM_ADMIN_PREFIX : String := "_"

/-- Go `strings.HasPrefix(s, pre)`. -/
def HasPrefix (s pre : String) : Bool := pre.data.isPrefixOf s.data

/-- Go `strings.ToLower`, on the letters A to Z.  The source only compares the
result with "none" and "null", and no character outside A to Z lowers to one
of the letters of these two words. -/
def ToLower (s : String) : String := ⟨s.data.map Char.toLower⟩

/-- The error values the embedded code produces or receives. -/
inductive GoError where
  /-- The value `sql.ErrNoRows`. -/
  | ErrNoRows
  /-- The result of `httperrors.NewForbiddenError`. -/
  | Forbidden (msg : String)
  /-- The result of `fmt.Errorf`. -/
  | Errorf (msg : String)
  /-- A failure reported by the record store. -/
  | Backend (msg : String)
  /-- The result of `errors.Wrap(cause, msg)`. -/
  | Wrapped (cause : GoError) (msg : String)
  deriving DecidableEq, Repr

/-- The method `Error()` of an error value. -/
def GoError.Error : GoError → String
  | .ErrNoRows => "sql: no rows in result set"
  | .Forbidden msg => msg
  | .Errorf msg => msg
  | .Backend msg => msg
  | .Wrapped cause msg => msg ++ ": " ++ cause.Error

/-! ## Data model -/

/-- What metadata.go uses of an `IModel`: `GetModelManager().Keyword()` and
`GetId()`. -/
structure IModel where
  Keyword : String
  Id : String
  deriving DecidableEq, Repr

/-- A non-nil `mcclient.TokenCredential`; a nil credential is `none`. -/
structure TokenCredential where
  User : String
  deriving DecidableEq, Repr

/-- The type of `IsAdminAllowGetSpec(userCred, obj, spec)`, the policy check
the db package defines outside metadata.go; the embedded functions take it as
a parameter. -/
abbrev Policy := TokenCredential → IModel → String → Bool

/-- The struct `SMetadata`, a row of `metadata_tbl` with primary key
(`Id`, `Key`).  The timestamp `UpdatedAt` is left out. -/
structure SMetadata where
  Id : String
  Key : String
  Value : String
  deriving DecidableEq, Repr

/-- The struct `sMetadataChange`. -/
structure sMetadataChange where
  Key : String
  OValue : String
  NValue : String
  deriving DecidableEq, Repr

/-- The function `GetObjectIdstr`: `fmt.Sprintf("%s::%s", keyword, id)`. -/
def GetObjectIdstr (model : IModel) : String :=
  model.Keyword ++ "::" ++ model.Id

/-! ## Collaborators: record store, lock manager, audit sink -/

/-- The columns of `metadata_tbl` a query can name. -/
inductive Column where
  | id
  | key
  | value
  deriving DecidableEq, Repr

/-- The value of a column in a row. -/
def Column.get : Column → SMetadata → String
  | .id, r => r.Id
  | .key, r => r.Key
  | .value, r => r.Value

/-- A condition of a query. -/
inductive Cond where
  | Equals (col : Column) (v : String)
  | In (col : Column) (vs : List String)
  deriving DecidableEq, Repr

/-- Whether a row satisfies a condition. -/
def Cond.holds : Cond → SMetadata → Bool
  | .Equals col v, r => col.get r == v
  | .In col vs, r => vs.contains (col.get r)

/-- A query on `metadata_tbl`: the conjunction of its conditions. -/
structure SQuery where
  conds : List Cond
  deriving DecidableEq, Repr

/-- The call `manager.Query()`: no condition yet. -/
def Query : SQuery := ⟨[]⟩

/-- The method `q.Equals(col, v)`. -/
def SQuery.Equals (q : SQuery) (col : Column) (v : String) : SQuery :=
  ⟨q.conds ++ [Cond.Equals col v]⟩

/-- The method `q.In(col, vs)`. -/
def SQuery.In (q : SQuery) (col : Column) (vs : List String) : SQuery :=
  ⟨q.conds ++ [Cond.In col vs]⟩

/-- Whether a row is selected by a query. -/
def SQuery.selects (q : SQuery) (r : SMetadata) : Bool :=
  q.conds.all (fun c => c.holds r)

/-- The audit actions metadata.go logs. -/
inductive Action where
  | ACT_SET_METADATA
  | ACT_DEL_METADATA
  deriving DecidableEq, Repr

/-- A call to a collaborator, as it appears in the trace. -/
inductive Event where
  /-- The call `lockman.LockObject(ctx, obj)`. -/
  | LockObject (obj : IModel)
  /-- The call `lockman.ReleaseObject(ctx, obj)`. -/
  | ReleaseObject (obj : IModel)
  /-- A read of the record store: `First` or `FetchModelObjects`. -/
  | Read (q : SQuery) (ok : Bool)
  /-- The call `TableSpec().Insert(&record)`; `ok` tells whether it succeeded. -/
  | Insert (record : SMetadata) (ok : Bool)
  /-- The call `Update(&record, ...)`; `record` is the row as written. -/
  | Update (record : SMetadata) (ok : Bool)
  /-- The call `OpsLog.LogEvent(obj, action, jsonutils.Marshal(changes), userCred)`. -/
  | LogEvent (obj : IModel) (action : Action) (changes : List sMetadataChange)
      (userCred : Option TokenCredential)
  deriving DecidableEq, Repr

/-- The state the embedded functions pass along: the rows of the table, the
outcome of each coming record-store operation (`some msg` makes the operation
fail with that message, `none` or an exhausted list lets it succeed), and the
trace of the calls made so far. -/
structure Store where
  records : List SMetadata
  faults : List (Option String)
  trace : List Event
  deriving DecidableEq, Repr

/-- Append a call to the trace. -/
def Store.emit (w : Store) (e : Event) : Store :=
  { w with trace := w.trace ++ [e] }

/-- Take the outcome of the next record-store operation. -/
def Store.nextFault (w : Store) : Option String × Store :=
  match w.faults with
  | [] => (none, w)
  | f :: fs => (f, { w with faults := fs })

/-- Modelled from the spec: the method `First` of a query, of the record store
the spec assumes as a collaborator.  It gives the first selected row,
`sql.ErrNoRows` when no row is selected, or the failure of the store. -/
def First (q : SQuery) (w : Store) : Except GoError SMetadata × Store :=
  match w.nextFault with
  | (some msg, w1) => (.error (.Backend msg), w1.emit (.Read q false))
  | (none, w1) =>
    match w1.records.find? q.selects with
    | none => (.error .ErrNoRows, w1.emit (.Read q true))
    | some r => (.ok r, w1.emit (.Read q true))

/-- Modelled from the spec: the function `FetchModelObjects` of the record
store: all selected rows, or the failure of the store. -/
def FetchModelObjects (q : SQuery) (w : Store) : Except GoError (List SMetadata) × Store :=
  match w.nextFault with
  | (some msg, w1) => (.error (.Backend msg), w1.emit (.Read q false))
  | (none, w1) => (.ok (w1.records.filter q.selects), w1.emit (.Read q true))

/-- Modelled from the spec: the method `TableSpec().Insert` of the record
store: the row is added, or the store fails and nothing is added. -/
def Insert (record : SMetadata) (w : Store) : Option GoError × Store :=
  match w.nextFault with
  | (some msg, w1) => (some (.Backend msg), w1.emit (.Insert record false))
  | (none, w1) =>
    let records1 := w1.records ++ [record]
    (none, { w1 with records := records1 }.emit (.Insert record true))

/-- Modelled from the spec: the function `Update(&record, doUpdate)` of the
record store.  It runs the callback, which assigns to the caller's variable
`record`, and then saves the row under its primary key; the second component
is the caller's variable after the call. -/
def Update (record : SMetadata) (doUpdate : SMetadata → SMetadata) (w : Store) :
    Option GoError × SMetadata × Store :=
  let record1 := doUpdate record
  match w.nextFault with
  | (some msg, w1) => (some (.Backend msg), record1, w1.emit (.Update record1 false))
  | (none, w1) =>
    let records1 := w1.records.map
      (fun r => if r.Id = record.Id ∧ r.Key = record.Key then record1 else r)
    (none, record1, { w1 with records := records1 }.emit (.Update record1 true))

/-! ## metadata.go -/

/-- The test `userCred == nil || !IsAdminAllowGetSpec(userCred, obj, "metadata")`
of `SetAll` and `GetStringValue`. -/
def notAdminAllowGet (policy : Policy) (userCred : Option TokenCredential) (obj : IModel) :
    Bool :=
  match userCred with
  | none => true
  | some cred => !policy cred obj "metadata"

/-- The test `userCred != nil && IsAdminAllowGetSpec(userCred, obj, "metadata")`
of `GetAll`. -/
def adminAllowGet (policy : Policy) (userCred : Option TokenCredential) (obj : IModel) :
    Bool :=
  match userCred with
  | none => false
  | some cred => policy cred obj "metadata"

/-- The normalisation of a value in `SetAll`: the strings that lower to "none"
or "null" become the empty string. -/
def normValue (valStr : String) : String :=
  let valStrLower := ToLower valStr
  if valStrLower = "none" ∨ valStrLower = "null" then "" else valStr

/-- The loop `for key, value := range store` of `SetAll`, over the entries in
the order they are visited.  The result is the error of an early return, the
list `changes` and the store. -/
def SetAllLoop {α : Type} (policy : Policy) (Interface2String : α → String)
    (obj : IModel) (userCred : Option TokenCredential) (idStr : String) :
    List (String × α) → List sMetadataChange → Store →
      Option GoError × List sMetadataChange × Store
  | [], changes, w => (none, changes, w)
  | (key, value) :: rest, changes, w =>
    if HasPrefix key SYSTEM_ADMIN_PREFIX && notAdminAllowGet policy userCred obj then
      (some (.Forbidden "Ordinary users can't set the tags that begin with an underscore"),
        changes, w)
    else
      let valStr := normValue (Interface2String value)
      match First ((Query.Equals .id idStr).Equals .key key) w with
      | (.error .ErrNoRows, w1) =>
        let changes1 := changes ++ [{ Key := key, OValue := "", NValue := valStr }]
        let record : SMetadata := { Id := idStr, Key := key, Value := valStr }
        match Insert record w1 with
        | (some err, w2) => (some err, changes1, w2)
        | (none, w2) =>
          SetAllLoop policy Interface2String obj userCred idStr rest changes1 w2
      | (.error err, w1) => (some err, changes, w1)
      | (.ok record, w1) =>
        match Update record (fun r => { r with Value := valStr }) w1 with
        | (some err, _, w2) => (some err, changes, w2)
        | (none, record1, w2) =>
          SetAllLoop policy Interface2String obj userCred idStr rest
            (changes ++ [{ Key := key, OValue := record1.Value, NValue := valStr }]) w2

/-- The method `SMetadataManager.SetAll`.  The deferred `ReleaseObject` runs
when the function returns, on every path. -/
def SetAll {α : Type} (policy : Policy) (Interface2String : α → String)
    (obj : IModel) (store : List (String × α)) (userCred : Option TokenCredential)
    (w : Store) : Option GoError × Store :=
  let idStr := GetObjectIdstr obj
  let w1 := w.emit (.LockObject obj)
  match SetAllLoop policy Interface2String obj userCred idStr store [] w1 with
  | (some err, _, w2) => (some err, w2.emit (.ReleaseObject obj))
  | (none, changes, w2) =>
    let w3 :=
      if changes.length > 0 then w2.emit (.LogEvent obj .ACT_SET_METADATA changes userCred)
      else w2
    (none, w3.emit (.ReleaseObject obj))

/-- The method `SMetadataManager.SetValue`. -/
def SetValue {α : Type} (policy : Policy) (Interface2String : α → String)
    (obj : IModel) (key : String) (value : α) (userCred : Option TokenCredential)
    (w : Store) : Option GoError × Store :=
  SetAll policy Interface2String obj [(key, value)] userCred w

/-- The loop `for _, rec := range records` of `RemoveAll`. -/
def RemoveAllLoop : List SMetadata → List sMetadataChange → Store →
    List sMetadataChange × Store
  | [], changes, w => (changes, w)
  | rc :: rest, changes, w =>
    if rc.Value.length > 0 then
      match Update rc (fun r => { r with Value := "" }) w with
      | (some _, _, w1) => RemoveAllLoop rest changes w1
      | (none, rc1, w1) =>
        RemoveAllLoop rest (changes ++ [{ Key := rc1.Key, OValue := rc1.Value, NValue := "" }]) w1
    else RemoveAllLoop rest changes w

/-- The method `SMetadataManager.RemoveAll`. -/
def RemoveAll (model : IModel) (userCred : Option TokenCredential) (w : Store) :
    Option GoError × Store :=
  let idStr := GetObjectIdstr model
  if idStr.length = 0 then (some (.Errorf "invalid model"), w)
  else
    let w1 := w.emit (.LockObject model)
    match FetchModelObjects (Query.Equals .id idStr) w1 with
    | (.error err, w2) =>
      (some (.Errorf ("find metadata for " ++ idStr ++ " fail: " ++ err.Error)),
        w2.emit (.ReleaseObject model))
    | (.ok records, w2) =>
      match RemoveAllLoop records [] w2 with
      | (changes, w3) =>
        let w4 :=
          if changes.length > 0 then
            w3.emit (.LogEvent model .ACT_DEL_METADATA changes userCred)
          else w3
        (none, w4.emit (.ReleaseObject model))

/-- A Go `map[string]string` as the list of its entries, each key once. -/
abbrev StringMap := List (String × String)

/-- The assignment `m[k] = v`. -/
def StringMap.set : StringMap → String → String → StringMap
  | [], k, v => [(k, v)]
  | (k1, v1) :: rest, k, v =>
    if k1 = k then (k, v) :: rest else (k1, v1) :: StringMap.set rest k v

/-- The lookup `m[k]`, `none` when the key is absent. -/
def StringMap.get : StringMap → String → Option String
  | [], _ => none
  | (k1, v1) :: rest, k => if k1 = k then some v1 else StringMap.get rest k

/-- The loop `for _, rec := range records` of `GetAll`. -/
def GetAllLoop (policy : Policy) (obj : IModel) (userCred : Option TokenCredential) :
    List SMetadata → StringMap → StringMap
  | [], ret => ret
  | rc :: rest, ret =>
    if rc.Value.length > 0 then
      if HasPrefix rc.Key SYSTEM_ADMIN_PREFIX then
        if adminAllowGet policy userCred obj then
          let key : String := ⟨rc.Key.data.drop SYSTEM_ADMIN_PREFIX.length⟩
          GetAllLoop policy obj userCred rest (ret.set key rc.Value)
        else GetAllLoop policy obj userCred rest ret
      else GetAllLoop policy obj userCred rest (ret.set rc.Key rc.Value)
    else GetAllLoop policy obj userCred rest ret

/-- The method `SMetadataManager.GetAll`; a nil `keys` is the empty list. -/
def GetAll (policy : Policy) (obj : IModel) (keys : List String)
    (userCred : Option TokenCredential) (w : Store) : Except GoError StringMap × Store :=
  let idStr := GetObjectIdstr obj
  let q := Query.Equals .id idStr
  let q := if keys.length > 0 then q.In .key keys else q
  match FetchModelObjects q w with
  | (.error err, w1) => (.error err, w1)
  | (.ok records, w1) => (.ok (GetAllLoop policy obj userCred records []), w1)

/-! ## clouduser_syncstatus_task.go -/

/-- The status constants of the cloudid api that the task sets. -/
inductive CloudUserStatus where
  | CLOUD_USER_STATUS_AVAILABLE
  | CLOUD_USER_STATUS_UNKNOWN
  deriving DecidableEq, Repr

/-- A call the task makes on the cloud user or on the task runtime. -/
inductive TaskEvent where
  /-- The call `clouduser.SetStatus(userCred, status, reason)`. -/
  | SetStatus (userCred : Option TokenCredential) (status : CloudUserStatus) (reason : String)
  /-- The call `self.SetStageComplete(ctx, data)`; a nil `data` is `none`. -/
  | SetStageComplete (data : Option String)
  /-- The call `self.SetStageFailed(ctx, reason)`. -/
  | SetStageFailed (reason : String)
  deriving DecidableEq, Repr

/-- The function `errors.Wrap(err, msg)` of the errors package the task
imports: an error whose message is `msg`, a colon and a blank, and the message
of `err`. -/
def Wrap (err : GoError) (msg : String) : GoError :=
  .Wrapped err msg

/-- The method `ClouduserSyncstatusTask.taskFailed`. -/
def taskFailed (userCred : Option TokenCredential) (err : GoError) : List TaskEvent :=
  [.SetStatus userCred .CLOUD_USER_STATUS_UNKNOWN err.Error, .SetStageFailed err.Error]

/-- The method `ClouduserSyncstatusTask.OnInit`; `iclouduser` is what
`clouduser.GetIClouduser()` returns and `userCred` what `self.GetUserCred()`
returns. -/
def OnInit {ι : Type} (userCred : Option TokenCredential) (iclouduser : Except GoError ι) :
    List TaskEvent :=
  match iclouduser with
  | .error err => taskFailed userCred (Wrap err "GetIClouduser")
  | .ok _ => [.SetStatus userCred .CLOUD_USER_STATUS_AVAILABLE "", .SetStageComplete none]

/-! ## Predicates on traces -/

/-- Whether a task call is `SetStageComplete`. -/
def TaskEvent.isComplete : TaskEvent → Bool
  | .SetStageComplete _ => true
  | _ => false

/-- Whether a task call is `SetStageFailed`. -/
def TaskEvent.isFailed : TaskEvent → Bool
  | .SetStageFailed _ => true
  | _ => false

/-- Whether a call is a call to the lock manager. -/
def Event.isLockCall : Event → Bool
  | .LockObject _ => true
  | .ReleaseObject _ => true
  | _ => false

/-- Whether a call is a read or a write of the record store. -/
def Event.isStoreCall : Event → Bool
  | .Read _ _ => true
  | .Insert _ _ => true
  | .Update _ _ => true
  | _ => false

/-- Whether a call is a record-store operation that failed. -/
def Event.failed : Event → Bool
  | .Read _ ok => !ok
  | .Insert _ ok => !ok
  | .Update _ ok => !ok
  | _ => false

/-- Whether a call inserts or updates a row whose key has the system prefix,
whatever its outcome. -/
def Event.writesSystemKey : Event → Bool
  | .Insert r _ => HasPrefix r.Key SYSTEM_ADMIN_PREFIX
  | .Update r _ => HasPrefix r.Key SYSTEM_ADMIN_PREFIX
  | _ => false

/-- Whether a row has a key with the system prefix. -/
def SMetadata.isSystem (r : SMetadata) : Bool := HasPrefix r.Key SYSTEM_ADMIN_PREFIX

/-- Equality of the results of fallible functions is decidable. -/
instance instDecidableEqExcept {ε α : Type} [DecidableEq ε] [DecidableEq α] :
    DecidableEq (Except ε α)
  | .ok a, .ok b => if h : a = b then isTrue (by rw [h]) else isFalse (fun e => h (by cases e; rfl))
  | .error a, .error b =>
    if h : a = b then isTrue (by rw [h]) else isFalse (fun e => h (by cases e; rfl))
  | .ok _, .error _ => isFalse (fun e => by cases e)
  | .error _, .ok _ => isFalse (fun e => by cases e)

/-- The rows of `obj` with a non-empty value and a key without the system
prefix, as the map from key to value: the words of the claim on `GetAll`. -/
def visibleRecords (obj : IModel) (records : List SMetadata) : StringMap :=
  (records.filter (fun r =>
    r.Id == GetObjectIdstr obj && (r.Value != "" && !HasPrefix r.Key SYSTEM_ADMIN_PREFIX))).map
      (fun r => (r.Key, r.Value))

/-- The rows a key filter selects: all rows when the filter is nil or empty. -/
def selectedRecords (keys : List String) (records : List SMetadata) : List SMetadata :=
  if keys.length > 0 then records.filter (fun r => keys.contains r.Key) else records

/-- The method `SMetadataManager.GetStringValue`; the store it returns holds the
trace of its read. -/
def GetStringValue (policy : Policy) (model : IModel) (key : String)
    (userCred : Option TokenCredential) (w : Store) : String × Store :=
  if HasPrefix key SYSTEM_ADMIN_PREFIX && notAdminAllowGet policy userCred model then ("", w)
  else
    let idStr := GetObjectIdstr model
    match First ((Query.Equals .id idStr).Equals .key key) w with
    | (.ok m, w1) => (m.Value, w1)
    | (.error _, w1) => ("", w1)

/-- Whether a call, when it inserts or updates a row, writes it under the id. -/
def Event.writesUnder (idStr : String) : Event → Bool
  | .Insert r _ => r.Id == idStr
  | .Update r _ => r.Id == idStr
  | _ => true

/-! ## Theorems -/

/-! ### The cloud-user status task -/

/-- C4: a dispatch of `OnInit` invokes exactly one outcome primitive.  When
`GetIClouduser` returns no error the trace of the dispatch holds one
`SetStageComplete`, called with nil, and no `SetStageFailed`; when it returns an
error the trace holds one `SetStageFailed` and no `SetStageComplete`. -/
theorem OnInit_one_outcome {ι : Type} (userCred : Option TokenCredential) :
    (∀ u : ι,
      (OnInit userCred (Except.ok u)).countP TaskEvent.isComplete = 1 ∧
      (OnInit userCred (Except.ok u)).countP TaskEvent.isFailed = 0 ∧
      (OnInit userCred (Except.ok u)).filter TaskEvent.isComplete =
        [TaskEvent.SetStageComplete none]) ∧
    (∀ err : GoError,
      (OnInit userCred (Except.error err : Except GoError ι)).countP TaskEvent.isFailed = 1 ∧
      (OnInit userCred (Except.error err : Except GoError ι)).countP TaskEvent.isComplete = 0) := by
  refine ⟨fun u => ?_, fun err => ?_⟩
  · simp [OnInit, TaskEvent.isComplete, TaskEvent.isFailed]
  · simp [OnInit, taskFailed, TaskEvent.isComplete, TaskEvent.isFailed]

/-- C5: when `GetIClouduser` returns an error `err`, `OnInit` sets the status
of the cloud user to unknown with the reason `r` and then calls
`SetStageFailed` with the same `r`, where `r` is the message of `err` wrapped
with "GetIClouduser", and it never sets the status to available.  When
`GetIClouduser` succeeds, `OnInit` sets the status to available with an empty
reason and never to unknown. -/
theorem OnInit_status_reason {ι : Type} (userCred : Option TokenCredential) :
    (∀ err : GoError,
      OnInit userCred (Except.error err : Except GoError ι) =
        [TaskEvent.SetStatus userCred CloudUserStatus.CLOUD_USER_STATUS_UNKNOWN
            (Wrap err "GetIClouduser").Error,
          TaskEvent.SetStageFailed (Wrap err "GetIClouduser").Error] ∧
      (Wrap err "GetIClouduser").Error = "GetIClouduser: " ++ err.Error ∧
      (∀ c reason, TaskEvent.SetStatus c CloudUserStatus.CLOUD_USER_STATUS_AVAILABLE reason ∉
        OnInit userCred (Except.error err : Except GoError ι))) ∧
    (∀ u : ι,
      OnInit userCred (Except.ok u) =
        [TaskEvent.SetStatus userCred CloudUserStatus.CLOUD_USER_STATUS_AVAILABLE "",
          TaskEvent.SetStageComplete none] ∧
      (∀ c reason, TaskEvent.SetStatus c CloudUserStatus.CLOUD_USER_STATUS_UNKNOWN reason ∉
        OnInit userCred (Except.ok u))) := by
  refine ⟨fun err => ⟨?_, ?_, ?_⟩, fun u => ⟨?_, ?_⟩⟩
  · simp [OnInit, taskFailed]
  · simp [Wrap, GoError.Error]
  · simp [OnInit, taskFailed]
  · simp [OnInit]
  · simp [OnInit]

/-! ### The resource key -/

/-- Two lists that agree once a colon and a rest follow them, and hold no colon
themselves, are equal, and so are the rests. -/
theorem append_sep_cancel (l1 l2 r1 r2 : List Char) (h1 : ':' ∉ l1) (h2 : ':' ∉ l2)
    (h : l1 ++ ':' :: r1 = l2 ++ ':' :: r2) : l1 = l2 ∧ r1 = r2 := by
  induction l1 generalizing l2 with
  | nil =>
    cases l2 with
    | nil => simpa using h
    | cons c l2 =>
      simp at h h2
      exact absurd h.1 h2.1
  | cons c l1 ih =>
    cases l2 with
    | nil =>
      simp at h h1
      exact absurd h.1.symm h1.1
    | cons d l2 =>
      simp at h h1 h2
      obtain ⟨ha, hb⟩ := ih l2 h1.2 h2.2 h.2
      exact ⟨by rw [h.1, ha], hb⟩

/-- C6, as stated, fails: the models with keyword "disk:" and id "1", and with
keyword "disk" and id ":1", have the same resource key "disk:::1" and
different keywords and ids. -/
theorem GetObjectIdstr_not_injective :
    GetObjectIdstr ⟨"disk:", "1"⟩ = GetObjectIdstr ⟨"disk", ":1"⟩ ∧
    (⟨"disk:", "1"⟩ : IModel).Keyword ≠ (⟨"disk", ":1"⟩ : IModel).Keyword ∧
    (⟨"disk:", "1"⟩ : IModel).Id ≠ (⟨"disk", ":1"⟩ : IModel).Id := by
  decide

/-- C6, amended: for two models whose manager keywords hold no colon,
`GetObjectIdstr m1 = GetObjectIdstr m2` implies that the models have the same
keyword and the same id. -/
theorem GetObjectIdstr_injective_of_keyword (m1 m2 : IModel)
    (h1 : ':' ∉ m1.Keyword.data) (h2 : ':' ∉ m2.Keyword.data)
    (h : GetObjectIdstr m1 = GetObjectIdstr m2) :
    m1.Keyword = m2.Keyword ∧ m1.Id = m2.Id := by
  have hd := congrArg String.data h
  simp only [GetObjectIdstr, String.data_append] at hd
  simp only [List.append_assoc, List.cons_append, List.nil_append] at hd
  obtain ⟨ha, hb⟩ := append_sep_cancel _ _ _ _ h1 h2 hd
  refine ⟨String.ext ha, String.ext ?_⟩
  simpa using hb

/-- C6, amended, at the models "disk" 1 and "disk" 1. -/
theorem GetObjectIdstr_injective_of_keyword_witness :
    ':' ∉ (⟨"disk", "1"⟩ : IModel).Keyword.data ∧
    GetObjectIdstr ⟨"disk", "1"⟩ = GetObjectIdstr ⟨"disk", "1"⟩ ∧
    (⟨"disk", "1"⟩ : IModel).Keyword = (⟨"disk", "1"⟩ : IModel).Keyword ∧
    (⟨"disk", "1"⟩ : IModel).Id = (⟨"disk", "1"⟩ : IModel).Id :=
  ⟨by decide, rfl,
    GetObjectIdstr_injective_of_keyword ⟨"disk", "1"⟩ ⟨"disk", "1"⟩ (by decide) (by decide) rfl⟩

/-! ### The record store -/

/-- The outcomes of `First`: a failure of the store, no selected row, or the
first selected row; the rows are untouched and one read is traced. -/
theorem First_cases (q : SQuery) (w : Store) :
    ∃ w1, w1.records = w.records ∧
      ((∃ msg, First q w = (.error (.Backend msg), w1) ∧
          w1.trace = w.trace ++ [.Read q false]) ∨
        (First q w = (.error .ErrNoRows, w1) ∧ w1.trace = w.trace ++ [.Read q true] ∧
          w.records.find? q.selects = none) ∨
        (∃ r, First q w = (.ok r, w1) ∧ w1.trace = w.trace ++ [.Read q true] ∧
          w.records.find? q.selects = some r)) := by
  obtain ⟨records, faults, trace⟩ := w
  refine ⟨(First q ⟨records, faults, trace⟩).2, ?_, ?_⟩
  · rcases faults with _ | ⟨_ | msg, fs⟩ <;>
      cases h : records.find? q.selects <;> simp [First, Store.nextFault, Store.emit, h]
  · rcases faults with _ | ⟨_ | msg, fs⟩ <;>
      cases h : records.find? q.selects <;> simp [First, Store.nextFault, Store.emit, h]

/-- The outcomes of `FetchModelObjects`. -/
theorem FetchModelObjects_cases (q : SQuery) (w : Store) :
    ∃ w1, w1.records = w.records ∧
      ((∃ msg, FetchModelObjects q w = (.error (.Backend msg), w1) ∧
          w1.trace = w.trace ++ [.Read q false]) ∨
        (FetchModelObjects q w = (.ok (w.records.filter q.selects), w1) ∧
          w1.trace = w.trace ++ [.Read q true])) := by
  obtain ⟨records, faults, trace⟩ := w
  refine ⟨(FetchModelObjects q ⟨records, faults, trace⟩).2, ?_, ?_⟩ <;>
    rcases faults with _ | ⟨_ | msg, fs⟩ <;>
      simp [FetchModelObjects, Store.nextFault, Store.emit]

/-- The outcomes of `Insert`. -/
theorem Insert_cases (record : SMetadata) (w : Store) :
    ∃ w1,
      (∃ msg, Insert record w = (some (.Backend msg), w1) ∧ w1.records = w.records ∧
          w1.trace = w.trace ++ [.Insert record false]) ∨
        (Insert record w = (none, w1) ∧ w1.records = w.records ++ [record] ∧
          w1.trace = w.trace ++ [.Insert record true]) := by
  obtain ⟨records, faults, trace⟩ := w
  refine ⟨(Insert record ⟨records, faults, trace⟩).2, ?_⟩
  rcases faults with _ | ⟨_ | msg, fs⟩ <;> simp [Insert, Store.nextFault, Store.emit]

/-- The outcomes of `Update`: the caller's variable holds the row as the
callback left it, whatever the outcome. -/
theorem Update_cases (record : SMetadata) (f : SMetadata → SMetadata) (w : Store) :
    ∃ w1,
      (∃ msg, Update record f w = (some (.Backend msg), f record, w1) ∧
          w1.records = w.records ∧ w1.trace = w.trace ++ [.Update (f record) false]) ∨
        (Update record f w = (none, f record, w1) ∧
          w1.records = w.records.map
            (fun r => if r.Id = record.Id ∧ r.Key = record.Key then f record else r) ∧
          w1.trace = w.trace ++ [.Update (f record) true]) := by
  obtain ⟨records, faults, trace⟩ := w
  refine ⟨(Update record f ⟨records, faults, trace⟩).2.2, ?_⟩
  rcases faults with _ | ⟨_ | msg, fs⟩ <;> simp [Update, Store.nextFault, Store.emit]

/-- The query of `SetAll` and `GetStringValue` selects the rows with the id and
the key. -/
theorem selects_id_key (idStr key : String) (r : SMetadata) :
    ((Query.Equals .id idStr).Equals .key key).selects r = true ↔
      r.Id = idStr ∧ r.Key = key := by
  simp [SQuery.selects, SQuery.Equals, Query, Cond.holds, Column.get]

/-- Saving a row whose key has no system prefix leaves the rows with a system
key as they are. -/
theorem filter_isSystem_map (rs : List SMetadata) (r0 r1 : SMetadata)
    (h0 : r0.isSystem = false) (h1 : r1.isSystem = false) :
    (rs.map (fun r => if r.Id = r0.Id ∧ r.Key = r0.Key then r1 else r)).filter
      SMetadata.isSystem = rs.filter SMetadata.isSystem := by
  induction rs with
  | nil => rfl
  | cons r rs ih =>
    simp only [List.map_cons]
    by_cases h : r.Id = r0.Id ∧ r.Key = r0.Key
    · have hr : r.isSystem = false := by
        simp only [SMetadata.isSystem] at h0 ⊢
        rw [h.2]; exact h0
      simp [h, List.filter_cons, h1, hr, ih]
    · simp only [h, if_false, List.filter_cons, ih]

/-- The loop of `SetAll`: it only calls the record store; for a credential that
is nil or not allowed, it writes no row with a system key, and it returns
Forbidden when the map holds a system key and no operation of the store fails. -/
theorem SetAllLoop_spec {α : Type} (policy : Policy) (Interface2String : α → String)
    (obj : IModel) (userCred : Option TokenCredential) (idStr : String) :
    ∀ (store : List (String × α)) (changes : List sMetadataChange) (w : Store),
      ∃ evs,
        (SetAllLoop policy Interface2String obj userCred idStr store changes w).2.2.trace =
          w.trace ++ evs ∧
        (∀ e ∈ evs, e.isStoreCall = true) ∧
        (notAdminAllowGet policy userCred obj = true →
          (∀ e ∈ evs, e.writesSystemKey = false) ∧
          (SetAllLoop policy Interface2String obj userCred idStr store changes
              w).2.2.records.filter SMetadata.isSystem =
            w.records.filter SMetadata.isSystem ∧
          ((∃ kv ∈ store, HasPrefix kv.1 SYSTEM_ADMIN_PREFIX = true) →
            (∀ e ∈ evs, e.failed = false) →
            (SetAllLoop policy Interface2String obj userCred idStr store changes w).1 =
              some (.Forbidden
                "Ordinary users can't set the tags that begin with an underscore"))) := by
  intro store
  induction store with
  | nil =>
    intro changes w
    exact ⟨[], by simp [SetAllLoop], by simp, fun _ => ⟨by simp, by simp [SetAllLoop], by simp⟩⟩
  | cons kv rest ih =>
    obtain ⟨key, value⟩ := kv
    intro changes w
    by_cases hsys : (HasPrefix key SYSTEM_ADMIN_PREFIX && notAdminAllowGet policy userCred obj) = true
    · refine ⟨[], ?_, by simp, fun _ => ⟨by simp, ?_, fun _ _ => ?_⟩⟩ <;>
        simp [SetAllLoop, hsys]
    · have hkey : notAdminAllowGet policy userCred obj = true →
          HasPrefix key SYSTEM_ADMIN_PREFIX = false := by
        intro hc
        simpa [hc] using hsys
      obtain ⟨w1, hrec1, hF⟩ := First_cases ((Query.Equals .id idStr).Equals .key key) w
      rcases hF with ⟨msg, hF, ht1⟩ | ⟨hF, ht1, hfind⟩ | ⟨r, hF, ht1, hfind⟩
      · refine ⟨[.Read ((Query.Equals .id idStr).Equals .key key) false], ?_, by simp [Event.isStoreCall], fun _ =>
          ⟨by simp [Event.writesSystemKey], ?_, fun _ hf => ?_⟩⟩
        · simp [SetAllLoop, hsys, hF, ht1]
        · simp [SetAllLoop, hsys, hF, hrec1]
        · simp [Event.failed] at hf
      · obtain ⟨w2, hI⟩ := Insert_cases
          { Id := idStr, Key := key, Value := normValue (Interface2String value) } w1
        rcases hI with ⟨msg, hI, hrec2, ht2⟩ | ⟨hI, hrec2, ht2⟩
        · refine ⟨[.Read ((Query.Equals .id idStr).Equals .key key) true,
            .Insert ⟨idStr, key, normValue (Interface2String value)⟩ false], ?_, by simp [Event.isStoreCall], fun hc =>
            ⟨?_, ?_, fun _ hf => ?_⟩⟩
          · simp [SetAllLoop, hsys, hF, hI, ht2, ht1]
          · simpa [Event.writesSystemKey] using hkey hc
          · simp [SetAllLoop, hsys, hF, hI, hrec2, hrec1]
          · simp [Event.failed] at hf
        · obtain ⟨evs, htr, hst, hrest⟩ := ih
            (changes ++ [sMetadataChange.mk key "" (normValue (Interface2String value))])
            w2
          have hloop : SetAllLoop policy Interface2String obj userCred idStr
              ((key, value) :: rest) changes w =
              SetAllLoop policy Interface2String obj userCred idStr rest
                (changes ++ [sMetadataChange.mk key "" (normValue (Interface2String value))]) w2 := by
            simp [SetAllLoop, hsys, hF, hI]
          rw [hloop]
          refine ⟨[.Read ((Query.Equals .id idStr).Equals .key key) true,
            .Insert ⟨idStr, key, normValue (Interface2String value)⟩ true] ++ evs, ?_, ?_, fun hc => ?_⟩
          · rw [htr, ht2, ht1]; simp
          · intro e he
            simp only [List.mem_append, List.mem_cons, List.mem_singleton,
              List.not_mem_nil, or_false] at he
            rcases he with (rfl | rfl) | he
            · rfl
            · rfl
            · exact hst e he
          · obtain ⟨hw, hr, hforb⟩ := hrest hc
            refine ⟨?_, ?_, ?_⟩
            · intro e he
              simp only [List.mem_append, List.mem_cons, List.mem_singleton,
                List.not_mem_nil, or_false] at he
              rcases he with (rfl | rfl) | he
              · rfl
              · simpa [Event.writesSystemKey] using hkey hc
              · exact hw e he
            · rw [hr, hrec2, hrec1]
              have := hkey hc
              simp [List.filter_append, SMetadata.isSystem, this]
            · intro hex hf
              apply hforb
              · obtain ⟨kv, hmem, hp⟩ := hex
                rcases List.mem_cons.1 hmem with rfl | hmem
                · rw [hkey hc] at hp; exact absurd hp (by simp)
                · exact ⟨kv, hmem, hp⟩
              · intro e he
                exact hf e (by simp [he])
      · obtain ⟨w2, hU⟩ := Update_cases r
          (fun r => { r with Value := normValue (Interface2String value) }) w1
        have hrk : r.Key = key :=
          ((selects_id_key idStr key r).1 (List.find?_some hfind)).2
        rcases hU with ⟨msg, hU, hrec2, ht2⟩ | ⟨hU, hrec2, ht2⟩
        · refine ⟨[.Read ((Query.Equals .id idStr).Equals .key key) true,
            .Update { r with Value := normValue (Interface2String value) } false], ?_, by simp [Event.isStoreCall], fun hc =>
            ⟨?_, ?_, fun _ hf => ?_⟩⟩
          · simp [SetAllLoop, hsys, hF, hU, ht2, ht1]
          · simpa [Event.writesSystemKey, hrk] using hkey hc
          · simp [SetAllLoop, hsys, hF, hU, hrec2, hrec1]
          · simp [Event.failed] at hf
        · obtain ⟨evs, htr, hst, hrest⟩ := ih
            (changes ++ [sMetadataChange.mk key (normValue (Interface2String value))
              (normValue (Interface2String value))]) w2
          have hloop : SetAllLoop policy Interface2String obj userCred idStr
              ((key, value) :: rest) changes w =
              SetAllLoop policy Interface2String obj userCred idStr rest
                (changes ++ [sMetadataChange.mk key (normValue (Interface2String value))
                  (normValue (Interface2String value))]) w2 := by
            simp [SetAllLoop, hsys, hF, hU]
          rw [hloop]
          refine ⟨[.Read ((Query.Equals .id idStr).Equals .key key) true,
            .Update { r with Value := normValue (Interface2String value) } true] ++ evs, ?_, ?_, fun hc => ?_⟩
          · rw [htr, ht2, ht1]; simp
          · intro e he
            simp only [List.mem_append, List.mem_cons, List.mem_singleton,
              List.not_mem_nil, or_false] at he
            rcases he with (rfl | rfl) | he
            · rfl
            · rfl
            · exact hst e he
          · obtain ⟨hw, hr, hforb⟩ := hrest hc
            refine ⟨?_, ?_, ?_⟩
            · intro e he
              simp only [List.mem_append, List.mem_cons, List.mem_singleton,
                List.not_mem_nil, or_false] at he
              rcases he with (rfl | rfl) | he
              · rfl
              · simpa [Event.writesSystemKey, hrk] using hkey hc
              · exact hw e he
            · rw [hr, hrec2, hrec1]
              apply filter_isSystem_map
              · simpa [SMetadata.isSystem, hrk] using hkey hc
              · simpa [SMetadata.isSystem, hrk] using hkey hc
            · intro hex hf
              apply hforb
              · obtain ⟨kv, hmem, hp⟩ := hex
                rcases List.mem_cons.1 hmem with rfl | hmem
                · rw [hkey hc] at hp; exact absurd hp (by simp)
                · exact ⟨kv, hmem, hp⟩
              · intro e he
                exact hf e (by simp [he])

/-- The loop of `RemoveAll` only calls the record store. -/
theorem RemoveAllLoop_trace :
    ∀ (records : List SMetadata) (changes : List sMetadataChange) (w : Store),
      ∃ evs, (RemoveAllLoop records changes w).2.trace = w.trace ++ evs ∧
        (∀ e ∈ evs, e.isStoreCall = true) := by
  intro records
  induction records with
  | nil => intro changes w; exact ⟨[], by simp [RemoveAllLoop], by simp⟩
  | cons rc rest ih =>
    intro changes w
    by_cases hv : rc.Value.length > 0
    · obtain ⟨w1, hU⟩ := Update_cases rc (fun r => { r with Value := "" }) w
      rcases hU with ⟨msg, hU, -, ht⟩ | ⟨hU, -, ht⟩
      · obtain ⟨evs, htr, hst⟩ := ih changes w1
        refine ⟨[.Update { rc with Value := "" } false] ++ evs, ?_, ?_⟩
        · simp [RemoveAllLoop, hv, hU, htr, ht]
        · intro e he
          rcases List.mem_append.1 he with he | he
          · rw [List.mem_singleton.1 he]; rfl
          · exact hst e he
      · obtain ⟨evs, htr, hst⟩ := ih (changes ++ [sMetadataChange.mk rc.Key "" ""]) w1
        refine ⟨[.Update { rc with Value := "" } true] ++ evs, ?_, ?_⟩
        · simp [RemoveAllLoop, hv, hU, htr, ht]
        · intro e he
          rcases List.mem_append.1 he with he | he
          · rw [List.mem_singleton.1 he]; rfl
          · exact hst e he
    · obtain ⟨evs, htr, hst⟩ := ih changes w
      exact ⟨evs, by simp [RemoveAllLoop, hv, htr], hst⟩

/-- The resource key is never the empty string. -/
theorem GetObjectIdstr_length (model : IModel) : (GetObjectIdstr model).length ≠ 0 := by
  simp only [GetObjectIdstr, String.length_append]
  have h : "::".length = 2 := rfl
  omega

/-- A call to the record store is no call to the lock manager. -/
theorem isLockCall_of_isStoreCall (e : Event) (h : e.isStoreCall = true) :
    e.isLockCall = false := by
  cases e <;> simp_all [Event.isStoreCall, Event.isLockCall]

/-- C3: every call of `SetAll` and every call of `RemoveAll` adds to the trace
one `LockObject` on its object, then calls among which there is no call to the
lock manager, then one `ReleaseObject` on the same object, on every exit path:
the release happens exactly once, after the acquire and after the last read or
write of the record store, and no read or write of the call is outside the
interval. -/
theorem SetAll_RemoveAll_release_once :
    (∀ (α : Type) (policy : Policy) (Interface2String : α → String) (obj : IModel)
        (store : List (String × α)) (userCred : Option TokenCredential) (w : Store),
      ∃ mid,
        (SetAll policy Interface2String obj store userCred w).2.trace =
          w.trace ++ [Event.LockObject obj] ++ mid ++ [Event.ReleaseObject obj] ∧
        (∀ e ∈ mid, e.isLockCall = false)) ∧
    (∀ (model : IModel) (userCred : Option TokenCredential) (w : Store),
      ∃ mid,
        (RemoveAll model userCred w).2.trace =
          w.trace ++ [Event.LockObject model] ++ mid ++ [Event.ReleaseObject model] ∧
        (∀ e ∈ mid, e.isLockCall = false)) := by
  constructor
  · intro α policy Interface2String obj store userCred w
    obtain ⟨evs, htr, hst, -⟩ := SetAllLoop_spec policy Interface2String obj userCred
      (GetObjectIdstr obj) store [] (w.emit (.LockObject obj))
    rcases hres : SetAllLoop policy Interface2String obj userCred (GetObjectIdstr obj) store []
      (w.emit (.LockObject obj)) with ⟨err, changes, w2⟩
    rw [hres] at htr
    simp only [Store.emit] at htr
    cases err with
    | some err =>
      refine ⟨evs, ?_, fun e he => isLockCall_of_isStoreCall e (hst e he)⟩
      simp only [SetAll, hres]; simp [Store.emit, htr]
    | none =>
      by_cases hc : changes.length > 0
      · refine ⟨evs ++ [.LogEvent obj .ACT_SET_METADATA changes userCred], ?_, ?_⟩
        · simp only [SetAll, hres]; simp [Store.emit, htr, hc]
        · intro e he
          rcases List.mem_append.1 he with he | he
          · exact isLockCall_of_isStoreCall e (hst e he)
          · rw [List.mem_singleton.1 he]; rfl
      · refine ⟨evs, ?_, fun e he => isLockCall_of_isStoreCall e (hst e he)⟩
        simp only [SetAll, hres]; simp [Store.emit, htr, hc]
  · intro model userCred w
    have hlen := GetObjectIdstr_length model
    obtain ⟨w2, -, hF⟩ := FetchModelObjects_cases (Query.Equals .id (GetObjectIdstr model))
      (w.emit (.LockObject model))
    rcases hF with ⟨msg, hF, ht⟩ | ⟨hF, ht⟩
    · refine ⟨[.Read (Query.Equals .id (GetObjectIdstr model)) false], ?_, ?_⟩
      · simp only [RemoveAll, hlen, if_false, hF]; simp [Store.emit, ht]
      · intro e he
        rw [List.mem_singleton.1 he]; rfl
    · obtain ⟨evs, htr, hst⟩ := RemoveAllLoop_trace
        ((w.emit (.LockObject model)).records.filter
          (Query.Equals .id (GetObjectIdstr model)).selects) [] w2
      rcases hres : RemoveAllLoop ((w.emit (.LockObject model)).records.filter
          (Query.Equals .id (GetObjectIdstr model)).selects) [] w2 with ⟨changes, w3⟩
      rw [hres] at htr
      simp only [Store.emit] at htr ht
      by_cases hc : changes.length > 0
      · refine ⟨[.Read (Query.Equals .id (GetObjectIdstr model)) true] ++ evs ++
          [.LogEvent model .ACT_DEL_METADATA changes userCred], ?_, ?_⟩
        · simp only [RemoveAll, hlen, if_false, hF, hres]; simp [Store.emit, htr, ht, hc]
        · intro e he
          simp only [List.mem_append, List.mem_singleton] at he
          rcases he with (he | he) | he
          · rw [he]; rfl
          · exact isLockCall_of_isStoreCall e (hst e he)
          · rw [he]; rfl
      · refine ⟨[.Read (Query.Equals .id (GetObjectIdstr model)) true] ++ evs, ?_, ?_⟩
        · simp only [RemoveAll, hlen, if_false, hF, hres]; simp [Store.emit, htr, ht, hc]
        · intro e he
          simp only [List.mem_append, List.mem_singleton] at he
          rcases he with he | he
          · rw [he]; rfl
          · exact isLockCall_of_isStoreCall e (hst e he)

/-- A credential that is nil, or for which `IsAdminAllowGetSpec` is false,
passes the test of `SetAll`. -/
theorem notAdminAllowGet_of_denied (policy : Policy) (userCred : Option TokenCredential)
    (obj : IModel) (hcred : ∀ cred, userCred = some cred → policy cred obj "metadata" = false) :
    notAdminAllowGet policy userCred obj = true := by
  cases userCred with
  | none => rfl
  | some cred => simp [notAdminAllowGet, hcred cred rfl]

/-- C1: for a map that holds a key with the system prefix and a credential that
is nil or for which `IsAdminAllowGetSpec` is false, `SetAll` returns the
Forbidden error whenever none of the record-store operations it performs
fails; on every path it neither inserts nor updates a row whose key has the
system prefix, and the rows with such a key are left as they were.  `SetValue`
with such a key returns Forbidden without touching the record store. -/
theorem SetAll_system_key_forbidden {α : Type} (policy : Policy)
    (Interface2String : α → String) (obj : IModel) (store : List (String × α))
    (userCred : Option TokenCredential) (w : Store)
    (hcred : ∀ cred, userCred = some cred → policy cred obj "metadata" = false)
    (hkey : ∃ kv ∈ store, HasPrefix kv.1 SYSTEM_ADMIN_PREFIX = true) :
    (∃ evs,
      (SetAll policy Interface2String obj store userCred w).2.trace = w.trace ++ evs ∧
      ((∀ e ∈ evs, e.failed = false) →
        (SetAll policy Interface2String obj store userCred w).1 =
          some (.Forbidden "Ordinary users can't set the tags that begin with an underscore")) ∧
      (∀ e ∈ evs, e.writesSystemKey = false)) ∧
    (SetAll policy Interface2String obj store userCred w).2.records.filter SMetadata.isSystem =
      w.records.filter SMetadata.isSystem ∧
    (∀ (key : String) (value : α), HasPrefix key SYSTEM_ADMIN_PREFIX = true →
      SetValue policy Interface2String obj key value userCred w =
        (some (.Forbidden "Ordinary users can't set the tags that begin with an underscore"),
          { w with trace := w.trace ++ [.LockObject obj, .ReleaseObject obj] })) := by
  have hc := notAdminAllowGet_of_denied policy userCred obj hcred
  obtain ⟨evs, htr, -, hrest⟩ := SetAllLoop_spec policy Interface2String obj userCred
    (GetObjectIdstr obj) store [] (w.emit (.LockObject obj))
  obtain ⟨hw, hr, hforb⟩ := hrest hc
  rcases hres : SetAllLoop policy Interface2String obj userCred (GetObjectIdstr obj) store []
    (w.emit (.LockObject obj)) with ⟨err, changes, w2⟩
  rw [hres] at htr hr hforb
  simp only [Store.emit] at htr hr
  refine ⟨?_, ?_, ?_⟩
  · cases err with
    | some err =>
      refine ⟨[.LockObject obj] ++ evs ++ [.ReleaseObject obj], ?_, ?_, ?_⟩
      · simp only [SetAll, hres]; simp [Store.emit, htr]
      · intro hf
        have := hforb hkey (fun e he => hf e (by simp [he]))
        simp only [SetAll, hres]; simpa using this
      · intro e he
        simp only [List.mem_append, List.mem_singleton] at he
        rcases he with (he | he) | he
        · rw [he]; rfl
        · exact hw e he
        · rw [he]; rfl
    | none =>
      refine ⟨[.LockObject obj] ++ evs ++
        (if changes.length > 0 then [.LogEvent obj .ACT_SET_METADATA changes userCred] else []) ++
        [.ReleaseObject obj], ?_, ?_, ?_⟩
      · simp only [SetAll, hres]
        split_ifs <;> simp [Store.emit, htr]
      · intro hf
        have := hforb hkey (fun e he => hf e (by simp [he]))
        simp at this
      · intro e he
        simp only [List.mem_append, List.mem_singleton] at he
        rcases he with ((he | he) | he) | he
        · rw [he]; rfl
        · exact hw e he
        · split_ifs at he
          · rw [List.mem_singleton.1 he]; rfl
          · simp at he
        · rw [he]; rfl
  · cases err with
    | some err => simp only [SetAll, hres]; simpa [Store.emit] using hr
    | none =>
      simp only [SetAll, hres]
      split_ifs <;> simpa [Store.emit] using hr
  · intro key value hk
    simp [SetValue, SetAll, SetAllLoop, hk, hc, Store.emit]

/-- C1 at the map with the keys "a" and "_b", visited in this order, for the nil
credential and the empty table. -/
theorem SetAll_system_key_forbidden_witness :
    (∃ kv ∈ [("a", "1"), ("_b", "2")], HasPrefix kv.1 SYSTEM_ADMIN_PREFIX = true) ∧
    (SetAll (fun _ _ _ => false) id ⟨"server", "1"⟩ [("a", "1"), ("_b", "2")] none
      ⟨[], [], []⟩).1 =
      some (.Forbidden "Ordinary users can't set the tags that begin with an underscore") ∧
    (SetAll (fun _ _ _ => false) id ⟨"server", "1"⟩ [("a", "1"), ("_b", "2")] none
      ⟨[], [], []⟩).2.records.filter SMetadata.isSystem = [] :=
  ⟨by decide, by decide,
    (SetAll_system_key_forbidden (fun _ _ _ => false) id ⟨"server", "1"⟩
      [("a", "1"), ("_b", "2")] none ⟨[], [], []⟩ (by simp) (by decide)).2.1⟩

/-! ### GetAll -/

/-- A string has a positive length when it is not the empty string. -/
theorem length_pos_eq_ne_empty (s : String) : decide (s.length > 0) = (s != "") := by
  obtain ⟨l⟩ := s
  cases l with
  | nil => rfl
  | cons c l =>
    have h : (String.mk (c :: l) != "") = true := by
      simp [bne, String.ext_iff]
    rw [h]
    simp [String.length]

/-- Assigning a key the map does not hold appends the entry. -/
theorem StringMap.set_of_not_mem (m : StringMap) (k v : String)
    (h : k ∉ m.map Prod.fst) : m.set k v = m ++ [(k, v)] := by
  induction m with
  | nil => rfl
  | cons kv m ih =>
    obtain ⟨k1, v1⟩ := kv
    simp only [List.map_cons, List.mem_cons, not_or] at h
    have hne : ¬ k1 = k := fun e => h.1 e.symm
    simp [StringMap.set, hne, ih h.2]

/-- For a credential that is nil or not allowed, the loop of `GetAll` skips the
rows with a system key. -/
theorem GetAllLoop_filter (policy : Policy) (obj : IModel)
    (userCred : Option TokenCredential) (hna : adminAllowGet policy userCred obj = false) :
    ∀ (records : List SMetadata) (ret : StringMap),
      GetAllLoop policy obj userCred records ret =
        GetAllLoop policy obj userCred (records.filter (fun r => !r.isSystem)) ret := by
  intro records
  induction records with
  | nil => intro ret; rfl
  | cons rc rest ih =>
    intro ret
    by_cases hs : HasPrefix rc.Key SYSTEM_ADMIN_PREFIX = true
    · by_cases hv : rc.Value.length > 0 <;>
        simp [GetAllLoop, List.filter_cons, SMetadata.isSystem, hs, hv, hna, ih]
    · by_cases hv : rc.Value.length > 0 <;>
        simp [GetAllLoop, List.filter_cons, SMetadata.isSystem, hs, hv, ih]

/-- For a credential that is nil or not allowed and rows with distinct keys, the
loop of `GetAll` appends the rows with a non-empty value and no system key. -/
theorem GetAllLoop_nodup (policy : Policy) (obj : IModel)
    (userCred : Option TokenCredential) (hna : adminAllowGet policy userCred obj = false) :
    ∀ (records : List SMetadata) (ret : StringMap),
      ((records.map (fun r => r.Key)) ++ ret.map Prod.fst).Nodup →
      GetAllLoop policy obj userCred records ret =
        ret ++ (records.filter (fun r =>
          r.Value != "" && !HasPrefix r.Key SYSTEM_ADMIN_PREFIX)).map
            (fun r => (r.Key, r.Value)) := by
  intro records
  induction records with
  | nil => intro ret _; simp [GetAllLoop]
  | cons rc rest ih =>
    intro ret hnd
    simp only [List.map_cons, List.cons_append, List.nodup_cons, List.mem_append, not_or] at hnd
    obtain ⟨⟨hk1, hk2⟩, hnd⟩ := hnd
    have hv := length_pos_eq_ne_empty rc.Value
    by_cases hlen : rc.Value.length > 0
    · have hne : (rc.Value != "") = true := by rw [← hv]; simpa using hlen
      by_cases hs : HasPrefix rc.Key SYSTEM_ADMIN_PREFIX = true
      · simp [GetAllLoop, List.filter_cons, hlen, hs, hna, ih ret hnd]
      · have hnd2 : ((rest.map (fun r => r.Key)) ++
            (ret.set rc.Key rc.Value).map Prod.fst).Nodup := by
          rw [StringMap.set_of_not_mem ret _ _ hk2]
          rw [List.map_append, ← List.append_assoc]
          simp only [List.map_cons, List.map_nil]
          rw [List.nodup_append]
          refine ⟨hnd, by simp, ?_⟩
          intro a ha hb
          rw [List.mem_singleton] at hb
          subst hb
          rcases List.mem_append.1 ha with ha | ha
          · exact hk1 ha
          · exact hk2 ha
        simp only [GetAllLoop, hlen, if_true, hs, List.filter_cons, hne, Bool.not_eq_true,
          Bool.true_and, Bool.not_false, Bool.false_eq_true, if_false]
        rw [ih _ hnd2, StringMap.set_of_not_mem ret _ _ hk2]
        simp [hs]
    · have hne : (rc.Value != "") = false := by rw [← hv]; simpa using hlen
      simp [GetAllLoop, List.filter_cons, hlen, hne, ih ret hnd]

/-- With the primary key (`Id`, `Key`), the rows of one id have distinct keys. -/
theorem nodup_keys_of_primary_key (records l : List SMetadata) (idStr : String)
    (hsub : l.Sublist records) (hid : ∀ r ∈ l, r.Id = idStr)
    (hpk : (records.map (fun r => (r.Id, r.Key))).Nodup) :
    (l.map (fun r => r.Key)).Nodup := by
  have h1 : (l.map (fun r => (r.Id, r.Key))).Nodup := hpk.sublist (hsub.map _)
  have h2 : ((l.map (fun r => (r.Id, r.Key))).map Prod.snd).Nodup := by
    apply List.Nodup.map_on _ h1
    intro x hx y hy hxy
    obtain ⟨a, ha, rfl⟩ := List.mem_map.1 hx
    obtain ⟨b, hb, rfl⟩ := List.mem_map.1 hy
    simp only at hxy
    simp [hid a ha, hid b hb, hxy]
  simpa [List.map_map] using h2

/-- The result of `GetAll`: the failure of the fetch, or the map the loop builds
from the rows of `obj` that the key filter selects. -/
theorem GetAll_fst (policy : Policy) (obj : IModel) (keys : List String)
    (userCred : Option TokenCredential) (w : Store) :
    (GetAll policy obj keys userCred w).1 =
      match w.nextFault.1 with
      | some msg => .error (.Backend msg)
      | none => .ok (GetAllLoop policy obj userCred
          ((selectedRecords keys w.records).filter (fun r => r.Id == GetObjectIdstr obj)) []) := by
  obtain ⟨records, faults, trace⟩ := w
  have hsel : records.filter
      (if keys.length > 0 then (Query.Equals .id (GetObjectIdstr obj)).In .key keys
        else Query.Equals .id (GetObjectIdstr obj)).selects =
      (selectedRecords keys records).filter (fun r => r.Id == GetObjectIdstr obj) := by
    by_cases hk : keys.length > 0
    · simp only [hk, if_true, selectedRecords, List.filter_filter]
      apply List.filter_congr
      intro r _
      simp [SQuery.selects, SQuery.Equals, SQuery.In, Query, Cond.holds, Column.get]
    · simp only [hk, if_false, selectedRecords]
      apply List.filter_congr
      intro r _
      simp [SQuery.selects, SQuery.Equals, Query, Cond.holds, Column.get]
  rcases faults with _ | ⟨_ | msg, fs⟩ <;>
    simp only [GetAll, FetchModelObjects, Store.nextFault, Store.emit, hsel]

/-- C10, as stated, fails in its second half: with the key filter "a" and the
rows a = 1 and b = 2 of the object, `GetAll` returns the map with the key a
only, and the rows of the object with a non-empty value and a key without the
system prefix are a and b. -/
theorem GetAll_key_filter_counterexample :
    (GetAll (fun _ _ _ => false) ⟨"server", "1"⟩ ["a"] none
      ⟨[⟨"server::1", "a", "1"⟩, ⟨"server::1", "b", "2"⟩], [], []⟩).1 = .ok [("a", "1")] ∧
    visibleRecords ⟨"server", "1"⟩ [⟨"server::1", "a", "1"⟩, ⟨"server::1", "b", "2"⟩] =
      [("a", "1"), ("b", "2")] ∧
    (GetAll (fun _ _ _ => false) ⟨"server", "1"⟩ ["a"] none
      ⟨[⟨"server::1", "a", "1"⟩, ⟨"server::1", "b", "2"⟩], [], []⟩).1 ≠
      .ok (visibleRecords ⟨"server", "1"⟩
        [⟨"server::1", "a", "1"⟩, ⟨"server::1", "b", "2"⟩]) := by
  decide

/-- C10, amended: for a credential that is nil or for which
`IsAdminAllowGetSpec` is false, `GetAll` returns the same result on two stores
that differ only in rows whose key has the system prefix; and, the table having
the primary key (`Id`, `Key`), its result is the failure of the fetch or the
map of the rows of `obj` that the key filter selects (all rows for an empty
filter), have a non-empty value and a key without the system prefix. -/
theorem GetAll_hides_system_keys (policy : Policy) (obj : IModel) (keys : List String)
    (userCred : Option TokenCredential) (w1 w2 : Store)
    (hcred : ∀ cred, userCred = some cred → policy cred obj "metadata" = false)
    (hfaults : w1.faults = w2.faults)
    (hrec : w1.records.filter (fun r => !r.isSystem) =
      w2.records.filter (fun r => !r.isSystem))
    (hpk : (w1.records.map (fun r => (r.Id, r.Key))).Nodup) :
    (GetAll policy obj keys userCred w1).1 = (GetAll policy obj keys userCred w2).1 ∧
    (GetAll policy obj keys userCred w1).1 =
      (match w1.nextFault.1 with
      | some msg => .error (.Backend msg)
      | none => .ok (visibleRecords obj (selectedRecords keys w1.records))) := by
  have hna : adminAllowGet policy userCred obj = false := by
    cases userCred with
    | none => rfl
    | some cred => simp [adminAllowGet, hcred cred rfl]
  have hnf : w1.nextFault.1 = w2.nextFault.1 := by
    simp only [Store.nextFault, hfaults]
    cases w2.faults <;> rfl
  have hcomm : ∀ records : List SMetadata,
      ((selectedRecords keys records).filter (fun r => r.Id == GetObjectIdstr obj)).filter
        (fun r => !r.isSystem) =
      (selectedRecords keys (records.filter (fun r => !r.isSystem))).filter
        (fun r => r.Id == GetObjectIdstr obj) := by
    intro records
    by_cases hk : keys.length > 0
    · simp only [selectedRecords, hk, if_true, List.filter_filter]
      apply List.filter_congr
      intro r _
      cases (!r.isSystem) <;> cases (r.Id == GetObjectIdstr obj) <;>
        cases (keys.contains r.Key) <;> rfl
    · simp only [selectedRecords, hk, if_false, List.filter_filter]
      apply List.filter_congr
      intro r _
      cases (!r.isSystem) <;> cases (r.Id == GetObjectIdstr obj) <;> rfl
  refine ⟨?_, ?_⟩
  · rw [GetAll_fst, GetAll_fst, hnf]
    rw [GetAllLoop_filter policy obj userCred hna
        ((selectedRecords keys w1.records).filter _) [],
      GetAllLoop_filter policy obj userCred hna
        ((selectedRecords keys w2.records).filter _) [], hcomm, hcomm, hrec]
  · rw [GetAll_fst]
    have hsub : ((selectedRecords keys w1.records).filter
        (fun r => r.Id == GetObjectIdstr obj)).Sublist w1.records := by
      refine (List.filter_sublist _).trans ?_
      simp only [selectedRecords]
      split_ifs
      · exact List.filter_sublist _
      · exact List.Sublist.refl _
    have hnd := nodup_keys_of_primary_key w1.records _ (GetObjectIdstr obj) hsub
      (fun r hr => by simpa using (List.mem_filter.1 hr).2) hpk
    rw [GetAllLoop_nodup policy obj userCred hna _ [] (by simpa using hnd)]
    simp [visibleRecords, List.filter_filter, Bool.and_comm]

/-- C10, amended, at two tables that differ in the row of the key "_c". -/
theorem GetAll_hides_system_keys_witness :
    (GetAll (fun _ _ _ => false) ⟨"server", "1"⟩ [] none
      ⟨[⟨"server::1", "a", "1"⟩, ⟨"server::1", "_c", "3"⟩], [], []⟩).1 =
    (GetAll (fun _ _ _ => false) ⟨"server", "1"⟩ [] none
      ⟨[⟨"server::1", "a", "1"⟩], [], []⟩).1 ∧
    (GetAll (fun _ _ _ => false) ⟨"server", "1"⟩ [] none
      ⟨[⟨"server::1", "a", "1"⟩, ⟨"server::1", "_c", "3"⟩], [], []⟩).1 = .ok [("a", "1")] :=
  ⟨(GetAll_hides_system_keys (fun _ _ _ => false) ⟨"server", "1"⟩ [] none
      ⟨[⟨"server::1", "a", "1"⟩, ⟨"server::1", "_c", "3"⟩], [], []⟩
      ⟨[⟨"server::1", "a", "1"⟩], [], []⟩ (by simp) rfl (by decide) (by decide)).1,
    by decide⟩

/-! ### The change entries and the audit events of SetAll and RemoveAll -/

/-- C2: the code at the failing input.  `SetAll(obj, {"color": "red"})` on the
empty table succeeds and stores the row; the same call on the table it left
finds the row, updates it, and logs an `ACT_SET_METADATA` event with one change
entry for "color", old value "red" and new value "red". -/
theorem SetAll_same_value_logs_change :
    SetAll (fun _ _ _ => false) id ⟨"server", "1"⟩ [("color", "red")] none ⟨[], [], []⟩ =
      (none, ⟨[⟨"server::1", "color", "red"⟩], [],
        [.LockObject ⟨"server", "1"⟩,
          .Read ((Query.Equals .id "server::1").Equals .key "color") true,
          .Insert ⟨"server::1", "color", "red"⟩ true,
          .LogEvent ⟨"server", "1"⟩ .ACT_SET_METADATA [⟨"color", "", "red"⟩] none,
          .ReleaseObject ⟨"server", "1"⟩]⟩) ∧
    SetAll (fun _ _ _ => false) id ⟨"server", "1"⟩ [("color", "red")] none
        ⟨[⟨"server::1", "color", "red"⟩], [], []⟩ =
      (none, ⟨[⟨"server::1", "color", "red"⟩], [],
        [.LockObject ⟨"server", "1"⟩,
          .Read ((Query.Equals .id "server::1").Equals .key "color") true,
          .Update ⟨"server::1", "color", "red"⟩ true,
          .LogEvent ⟨"server", "1"⟩ .ACT_SET_METADATA [⟨"color", "red", "red"⟩] none,
          .ReleaseObject ⟨"server", "1"⟩]⟩) := by
  decide

/-- C7: the code at the failing input.  For the map with the keys "a" and "_b",
visited in this order, and the nil credential, `SetAll` inserts the row of "a",
returns Forbidden at "_b" and logs no audit event: the written key "a" is in
no `ACT_SET_METADATA` event. -/
theorem SetAll_error_return_skips_audit :
    SetAll (fun _ _ _ => false) id ⟨"server", "1"⟩ [("a", "1"), ("_b", "2")] none
        ⟨[], [], []⟩ =
      (some (.Forbidden "Ordinary users can't set the tags that begin with an underscore"),
        ⟨[⟨"server::1", "a", "1"⟩], [],
          [.LockObject ⟨"server", "1"⟩,
            .Read ((Query.Equals .id "server::1").Equals .key "a") true,
            .Insert ⟨"server::1", "a", "1"⟩ true,
            .ReleaseObject ⟨"server", "1"⟩]⟩) ∧
    SetAll (fun _ _ _ => false) id ⟨"server", "1"⟩ [("a", "1"), ("b", "2")] none
        ⟨[], [none, none, some "connection lost"], []⟩ =
      (some (.Backend "connection lost"),
        ⟨[⟨"server::1", "a", "1"⟩], [],
          [.LockObject ⟨"server", "1"⟩,
            .Read ((Query.Equals .id "server::1").Equals .key "a") true,
            .Insert ⟨"server::1", "a", "1"⟩ true,
            .Read ((Query.Equals .id "server::1").Equals .key "b") false,
            .ReleaseObject ⟨"server", "1"⟩]⟩) := by
  decide

/-- C8: the code at the failing input.  On the table with the row "color" =
"red", `SetAll(obj, {"color": "blue"})` reports the change entry with key
"color", old value "blue" and new value "blue": the old value is read from the
record after the update assigned the new value to it. -/
theorem SetAll_change_old_value_is_new :
    SetAll (fun _ _ _ => false) id ⟨"server", "1"⟩ [("color", "blue")] none
        ⟨[⟨"server::1", "color", "red"⟩], [], []⟩ =
      (none, ⟨[⟨"server::1", "color", "blue"⟩], [],
        [.LockObject ⟨"server", "1"⟩,
          .Read ((Query.Equals .id "server::1").Equals .key "color") true,
          .Update ⟨"server::1", "color", "blue"⟩ true,
          .LogEvent ⟨"server", "1"⟩ .ACT_SET_METADATA [⟨"color", "blue", "blue"⟩] none,
          .ReleaseObject ⟨"server", "1"⟩]⟩) := by
  decide

/-- C9: the code at the failing input.  On the table with the row "color" =
"red", `RemoveAll(obj)` clears the row and reports the change entry with key
"color" and an empty old value: the old value is read from the record after the
update cleared it. -/
theorem RemoveAll_change_old_value_is_empty :
    RemoveAll ⟨"server", "1"⟩ none ⟨[⟨"server::1", "color", "red"⟩], [], []⟩ =
      (none, ⟨[⟨"server::1", "color", ""⟩], [],
        [.LockObject ⟨"server", "1"⟩,
          .Read (Query.Equals .id "server::1") true,
          .Update ⟨"server::1", "color", ""⟩ true,
          .LogEvent ⟨"server", "1"⟩ .ACT_DEL_METADATA [⟨"color", "", ""⟩] none,
          .ReleaseObject ⟨"server", "1"⟩]⟩) := by
  decide

/-! ### Write then read -/

/-- Saving a row leaves the first row of another key as it was. -/
theorem find?_update_other (l : List SMetadata) (r r1 : SMetadata) (idStr k0 : String)
    (h1 : r1.Key = r.Key) (hne : r.Key ≠ k0) :
    (l.map (fun x => if x.Id = r.Id ∧ x.Key = r.Key then r1 else x)).find?
        ((Query.Equals .id idStr).Equals .key k0).selects =
      l.find? ((Query.Equals .id idStr).Equals .key k0).selects := by
  induction l with
  | nil => rfl
  | cons x l ih =>
    by_cases hx : x.Id = r.Id ∧ x.Key = r.Key
    · have hs1 : ((Query.Equals .id idStr).Equals .key k0).selects r1 = false := by
        rw [Bool.eq_false_iff, Ne, selects_id_key]
        intro h
        exact hne (h1 ▸ h.2)
      have hs2 : ((Query.Equals .id idStr).Equals .key k0).selects x = false := by
        rw [Bool.eq_false_iff, Ne, selects_id_key]
        intro h
        exact hne (hx.2 ▸ h.2)
      simp only [List.map_cons, hx, and_self, if_true, List.find?_cons, hs1, hs2, ih]
    · simp only [List.map_cons, hx, if_false, List.find?_cons, ih]

/-- Saving the first row of a key makes the saved row the first row of the key. -/
theorem find?_update_same (l : List SMetadata) (r r1 : SMetadata) (idStr key : String)
    (hid : r1.Id = r.Id) (hk : r1.Key = r.Key)
    (hfind : l.find? ((Query.Equals .id idStr).Equals .key key).selects = some r) :
    (l.map (fun x => if x.Id = r.Id ∧ x.Key = r.Key then r1 else x)).find?
        ((Query.Equals .id idStr).Equals .key key).selects = some r1 := by
  have hr := (selects_id_key idStr key r).1 (List.find?_some hfind)
  have hs1 : ((Query.Equals .id idStr).Equals .key key).selects r1 = true := by
    rw [selects_id_key, hid, hk]; exact hr
  induction l with
  | nil => simp at hfind
  | cons x l ih =>
    by_cases hx : x.Id = r.Id ∧ x.Key = r.Key
    · simp only [List.map_cons, hx, and_self, if_true, List.find?_cons, hs1]
    · have hs2 : ((Query.Equals .id idStr).Equals .key key).selects x = false := by
        rw [Bool.eq_false_iff, Ne, selects_id_key]
        intro h
        exact hx ⟨h.1.trans hr.1.symm, h.2.trans hr.2.symm⟩
      simp only [List.find?_cons, hs2] at hfind
      simp only [List.map_cons, hx, if_false, List.find?_cons, hs2, ih hfind]

/-- A read that the store lets succeed gives the first selected row. -/
theorem First_of_found (q : SQuery) (w : Store) (r : SMetadata)
    (hf : w.nextFault.1 = none) (hfind : w.records.find? q.selects = some r) :
    (First q w).1 = .ok r ∧ (First q w).2.trace = w.trace ++ [.Read q true] := by
  obtain ⟨records, faults, trace⟩ := w
  rcases faults with _ | ⟨_ | msg, fs⟩
  · simp only at hfind
    simp [First, Store.nextFault, Store.emit, hfind]
  · simp only at hfind
    simp [First, Store.nextFault, Store.emit, hfind]
  · simp [Store.nextFault] at hf

/-- The loop of `SetAll`, when it returns no error: no key of the map was
refused, the first row of every key of the map under the id holds the
normalised value, the rows of the other keys are as before, and every row it
wrote is under the id. -/
theorem SetAllLoop_roundtrip {α : Type} (policy : Policy) (Interface2String : α → String)
    (obj : IModel) (userCred : Option TokenCredential) (idStr : String) :
    ∀ (store : List (String × α)) (changes : List sMetadataChange) (w : Store),
      (store.map Prod.fst).Nodup →
      (SetAllLoop policy Interface2String obj userCred idStr store changes w).1 = none →
      (∀ kv ∈ store,
        (HasPrefix kv.1 SYSTEM_ADMIN_PREFIX && notAdminAllowGet policy userCred obj) = false ∧
        ∃ r, (SetAllLoop policy Interface2String obj userCred idStr store changes
            w).2.2.records.find? ((Query.Equals .id idStr).Equals .key kv.1).selects = some r ∧
          r.Value = normValue (Interface2String kv.2)) ∧
      (∀ k, k ∉ store.map Prod.fst →
        (SetAllLoop policy Interface2String obj userCred idStr store changes
            w).2.2.records.find? ((Query.Equals .id idStr).Equals .key k).selects =
          w.records.find? ((Query.Equals .id idStr).Equals .key k).selects) ∧
      (∃ evs,
        (SetAllLoop policy Interface2String obj userCred idStr store changes w).2.2.trace =
          w.trace ++ evs ∧
        ∀ e ∈ evs, e.writesUnder idStr = true) := by
  intro store
  induction store with
  | nil =>
    intro changes w _ _
    exact ⟨by simp, fun k _ => by simp [SetAllLoop], [], by simp [SetAllLoop], by simp⟩
  | cons kv rest ih =>
    obtain ⟨key, value⟩ := kv
    intro changes w hnd hok
    simp only [List.map_cons, List.nodup_cons] at hnd
    obtain ⟨hkey, hnd⟩ := hnd
    by_cases hsys : (HasPrefix key SYSTEM_ADMIN_PREFIX && notAdminAllowGet policy userCred obj) = true
    · simp [SetAllLoop, hsys] at hok
    · have hsys2 : (HasPrefix key SYSTEM_ADMIN_PREFIX &&
          notAdminAllowGet policy userCred obj) = false := by simpa using hsys
      obtain ⟨w1, hrec1, hF⟩ := First_cases ((Query.Equals .id idStr).Equals .key key) w
      rcases hF with ⟨msg, hF, ht1⟩ | ⟨hF, ht1, hfind⟩ | ⟨r, hF, ht1, hfind⟩
      · simp [SetAllLoop, hsys, hF] at hok
      · obtain ⟨w2, hI⟩ := Insert_cases
          { Id := idStr, Key := key, Value := normValue (Interface2String value) } w1
        rcases hI with ⟨msg, hI, hrec2, ht2⟩ | ⟨hI, hrec2, ht2⟩
        · simp [SetAllLoop, hsys, hF, hI] at hok
        · have hloop : SetAllLoop policy Interface2String obj userCred idStr
              ((key, value) :: rest) changes w =
              SetAllLoop policy Interface2String obj userCred idStr rest
                (changes ++ [sMetadataChange.mk key "" (normValue (Interface2String value))])
                w2 := by
            simp [SetAllLoop, hsys, hF, hI]
          rw [hloop] at hok ⊢
          obtain ⟨hvals, hframe, evs, htr, hwr⟩ := ih _ w2 hnd hok
          refine ⟨?_, ?_, [.Read ((Query.Equals .id idStr).Equals .key key) true,
            .Insert ⟨idStr, key, normValue (Interface2String value)⟩ true] ++ evs, ?_, ?_⟩
          · intro kv hmem
            rcases List.mem_cons.1 hmem with rfl | hmem
            · refine ⟨hsys2, ⟨idStr, key, normValue (Interface2String value)⟩, ?_, rfl⟩
              rw [hframe key hkey, hrec2, hrec1, List.find?_append, hfind]
              simp [selects_id_key]
            · exact hvals kv hmem
          · intro k hk
            simp only [List.map_cons, List.mem_cons, not_or] at hk
            rw [hframe k hk.2, hrec2, hrec1, List.find?_append]
            have hs : ((Query.Equals .id idStr).Equals .key k).selects
                ⟨idStr, key, normValue (Interface2String value)⟩ = false := by
              rw [Bool.eq_false_iff, Ne, selects_id_key]
              intro h
              exact hk.1 h.2.symm
            simp [List.find?_cons, hs]
          · rw [htr, ht2, ht1]; simp
          · intro e he
            simp only [List.mem_append, List.mem_cons, List.mem_singleton,
              List.not_mem_nil, or_false] at he
            rcases he with (rfl | rfl) | he
            · rfl
            · simp [Event.writesUnder]
            · exact hwr e he
      · obtain ⟨w2, hU⟩ := Update_cases r
          (fun r => { r with Value := normValue (Interface2String value) }) w1
        have hr := (selects_id_key idStr key r).1 (List.find?_some hfind)
        rcases hU with ⟨msg, hU, hrec2, ht2⟩ | ⟨hU, hrec2, ht2⟩
        · simp [SetAllLoop, hsys, hF, hU] at hok
        · have hloop : SetAllLoop policy Interface2String obj userCred idStr
              ((key, value) :: rest) changes w =
              SetAllLoop policy Interface2String obj userCred idStr rest
                (changes ++ [sMetadataChange.mk key (normValue (Interface2String value))
                  (normValue (Interface2String value))]) w2 := by
            simp [SetAllLoop, hsys, hF, hU]
          rw [hloop] at hok ⊢
          obtain ⟨hvals, hframe, evs, htr, hwr⟩ := ih _ w2 hnd hok
          refine ⟨?_, ?_, [.Read ((Query.Equals .id idStr).Equals .key key) true,
            .Update { r with Value := normValue (Interface2String value) } true] ++ evs, ?_, ?_⟩
          · intro kv hmem
            rcases List.mem_cons.1 hmem with rfl | hmem
            · refine ⟨hsys2, { r with Value := normValue (Interface2String value) }, ?_, rfl⟩
              rw [hframe key hkey, hrec2, hrec1]
              exact find?_update_same w.records r _ idStr key rfl rfl hfind
            · exact hvals kv hmem
          · intro k hk
            simp only [List.map_cons, List.mem_cons, not_or] at hk
            rw [hframe k hk.2, hrec2, hrec1]
            exact find?_update_other w.records r _ idStr k rfl
              (fun h => hk.1 (h.symm.trans hr.2))
          · rw [htr, ht2, ht1]; simp
          · intro e he
            simp only [List.mem_append, List.mem_cons, List.mem_singleton,
              List.not_mem_nil, or_false] at he
            rcases he with (rfl | rfl) | he
            · rfl
            · simp [Event.writesUnder, hr.1]
            · exact hwr e he

/-- C11, as stated, fails: `SetAll(obj, {"color": "red"})` returns no error, and
when the query of `GetStringValue` then fails, `GetStringValue(obj, "color")`
returns the empty string, which is not the normalised value "red". -/
theorem GetStringValue_read_failure_counterexample :
    (SetAll (fun _ _ _ => false) id ⟨"server", "1"⟩ [("color", "red")] none
      ⟨[], [none, none, some "connection lost"], []⟩).1 = none ∧
    (GetStringValue (fun _ _ _ => false) ⟨"server", "1"⟩ "color" none
      (SetAll (fun _ _ _ => false) id ⟨"server", "1"⟩ [("color", "red")] none
        ⟨[], [none, none, some "connection lost"], []⟩).2).1 = "" ∧
    normValue (id "red") = "red" := by
  decide

/-- C11, amended: when `SetAll(ctx, obj, store, userCred)` returns no error,
then on the rows it left, for every key `k` of the map, `GetStringValue(obj,
k, userCred)` whose query does not fail returns the normalised value of
`store[k]`, where the normalisation maps a string that lowers to "none" or
"null" to the empty string and leaves every other string unchanged; `SetAll`
writes every row under the id `GetObjectIdstr(obj)`, and `GetStringValue`
reads with the query for that id and the key. -/
theorem SetAll_GetStringValue_roundtrip {α : Type} (policy : Policy)
    (Interface2String : α → String) (obj : IModel) (store : List (String × α))
    (userCred : Option TokenCredential) (w w2 : Store)
    (hnd : (store.map Prod.fst).Nodup)
    (hok : (SetAll policy Interface2String obj store userCred w).1 = none)
    (hrec : w2.records = (SetAll policy Interface2String obj store userCred w).2.records)
    (hread : w2.nextFault.1 = none) :
    (∀ kv ∈ store,
      (GetStringValue policy obj kv.1 userCred w2).1 = normValue (Interface2String kv.2) ∧
      (GetStringValue policy obj kv.1 userCred w2).2.trace =
        w2.trace ++ [.Read ((Query.Equals .id (GetObjectIdstr obj)).Equals .key kv.1) true]) ∧
    (∃ evs,
      (SetAll policy Interface2String obj store userCred w).2.trace = w.trace ++ evs ∧
      ∀ e ∈ evs, e.writesUnder (GetObjectIdstr obj) = true) ∧
    (∀ s, normValue s = if ToLower s = "none" ∨ ToLower s = "null" then "" else s) := by
  rcases hres : SetAllLoop policy Interface2String obj userCred (GetObjectIdstr obj) store []
    (w.emit (.LockObject obj)) with ⟨err, changes, w3⟩
  cases err with
  | some err => simp [SetAll, hres] at hok
  | none =>
    have hloop := SetAllLoop_roundtrip policy Interface2String obj userCred
      (GetObjectIdstr obj) store [] (w.emit (.LockObject obj)) hnd (by rw [hres])
    rw [hres] at hloop
    obtain ⟨hvals, -, evs, htr, hwr⟩ := hloop
    simp only [Store.emit] at htr
    have hrec3 : w2.records = w3.records := by
      rw [hrec]
      simp only [SetAll, hres]
      split_ifs <;> rfl
    refine ⟨?_, ?_, fun s => rfl⟩
    · intro kv hmem
      obtain ⟨hsys, r, hfind, hval⟩ := hvals kv hmem
      rw [← hrec3] at hfind
      obtain ⟨h1, h2⟩ := First_of_found _ w2 r hread hfind
      rcases hF : First ((Query.Equals .id (GetObjectIdstr obj)).Equals .key kv.1) w2 with
        ⟨res, w4⟩
      rw [hF] at h1 h2
      simp only at h1 h2
      subst h1
      simp only [GetStringValue, hsys, hF]
      exact ⟨hval, h2⟩
    · refine ⟨[.LockObject obj] ++ evs ++
        (if changes.length > 0 then [.LogEvent obj .ACT_SET_METADATA changes userCred] else []) ++
        [.ReleaseObject obj], ?_, ?_⟩
      · simp only [SetAll, hres]
        split_ifs <;> simp [Store.emit, htr]
      · intro e he
        simp only [List.mem_append, List.mem_singleton] at he
        rcases he with ((he | he) | he) | he
        · rw [he]; rfl
        · exact hwr e he
        · split_ifs at he
          · rw [List.mem_singleton.1 he]; rfl
          · simp at he
        · rw [he]; rfl

/-- C11, amended, at the map {"color": "NONE", "size": "big"} written on a table
that holds the row "color" = "red", and read back key by key. -/
theorem SetAll_GetStringValue_roundtrip_witness :
    ([("color", "NONE"), ("size", "big")].map Prod.fst).Nodup ∧
    (SetAll (fun _ _ _ => false) id ⟨"server", "1"⟩ [("color", "NONE"), ("size", "big")] none
      ⟨[⟨"server::1", "color", "red"⟩], [], []⟩).1 = none ∧
    (GetStringValue (fun _ _ _ => false) ⟨"server", "1"⟩ "color" none
      ⟨[⟨"server::1", "color", ""⟩, ⟨"server::1", "size", "big"⟩], [], []⟩).1 = "" ∧
    (GetStringValue (fun _ _ _ => false) ⟨"server", "1"⟩ "size" none
      ⟨[⟨"server::1", "color", ""⟩, ⟨"server::1", "size", "big"⟩], [], []⟩).1 = "big" :=
  ⟨by decide, by decide,
    ((SetAll_GetStringValue_roundtrip (fun _ _ _ => false) id ⟨"server", "1"⟩
      [("color", "NONE"), ("size", "big")] none ⟨[⟨"server::1", "color", "red"⟩], [], []⟩
      ⟨[⟨"server::1", "color", ""⟩, ⟨"server::1", "size", "big"⟩], [], []⟩
      (by decide) (by decide) (by decide) rfl).1 ("color", "NONE") (by simp)).1,
    ((SetAll_GetStringValue_roundtrip (fun _ _ _ => false) id ⟨"server", "1"⟩
      [("color", "NONE"), ("size", "big")] none ⟨[⟨"server::1", "color", "red"⟩], [], []⟩
      ⟨[⟨"server::1", "color", ""⟩, ⟨"server::1", "size", "big"⟩], [], []⟩
      (by decide) (by decide) (by decide) rfl).1 ("size", "big") (by simp)).1⟩

end Onecloud
